import Mathlib

/-!
A verification development for the WireGuard tunnel manager's
configuration / live-state engine (`src/wireguard.rs`).

Modelling conventions (shallow embedding):
* Rust `&str` / `String` values are modelled as `List Char` (`Str`), so that
  every operation is structurally recursive and kernel-reducible.
* Machine integers (`u8`, `u16`, `u64`) are modelled as `Nat` with explicit
  `% 2^w` where the code relies on wrapping (`u8::wrapping_add`).
* `f64` magnitudes in the byte-unit parser are modelled as exact decimal
  rationals (`Dec`, a mantissa/scale pair).  This is exact for every decimal
  literal the status text carries; the special float spellings `inf`/`nan`
  (which the code would also accept) are modelled as a parse failure.
* Filesystem state is an association list `FS` from paths to file contents;
  subprocess outcomes are supplied through explicit environment records.
* Rust whitespace tests are modelled over the ASCII whitespace characters.
-/

/-- Strings are modelled as lists of characters to keep every operation
structurally recursive. -/
abbrev Str := List Char

/-- ASCII whitespace, modelling `char::is_whitespace` on the inputs at hand. -/
def isWs (c : Char) : Bool :=
  c = ' ' || c = '\t' || c = '\n' || c = '\r' || c = '\x0b' || c = '\x0c'

/-- `str::trim`: drop whitespace from both ends. -/
def trim (s : Str) : Str :=
  ((s.dropWhile isWs).reverse.dropWhile isWs).reverse

/-- The scan of `splitOnceChar`, carrying the reversed prefix read so far
(tail-recursive, so long inputs evaluate in bounded stack depth). -/
def splitOnceGo (c : Char) (pre : Str) : Str → Option (Str × Str)
  | [] => none
  | x :: xs => if x = c then some (pre.reverse, xs) else splitOnceGo c (x :: pre) xs

/-- `str::split_once(c)`: split at the first occurrence of `c`; the separator
is not part of either half. -/
def splitOnceChar (c : Char) (s : Str) : Option (Str × Str) := splitOnceGo c [] s

/-- The scan of `splitChar`, carrying the reversed current segment and the
reversed list of finished segments (tail-recursive). -/
def splitCharGo (c : Char) (cur : Str) (out : List Str) : Str → List Str
  | [] => (cur.reverse :: out).reverse
  | x :: xs =>
    if x = c then splitCharGo c [] (cur.reverse :: out) xs
    else splitCharGo c (x :: cur) out xs

/-- `str::split(c)` with a `char` pattern: every occurrence separates; empty
segments are kept (`"".split(c)` yields one empty segment). -/
def splitChar (c : Char) (s : Str) : List Str := splitCharGo c [] [] s

/-- `str::lines()`: split on `'\n'`, drop a final empty segment produced by a
trailing newline, and strip one trailing `'\r'` per line. -/
def rustLines (s : Str) : List Str :=
  let parts := splitChar '\n' s
  let parts :=
    match parts.getLast? with
    | some [] => parts.dropLast
    | _ => parts
  parts.map fun l =>
    match l.getLast? with
    | some '\r' => l.dropLast
    | _ => l

/-- `str::starts_with` for a literal pattern. -/
def strStartsWith (pat s : Str) : Bool := pat.isPrefixOf s

/-- `str::ends_with` for a literal pattern. -/
def strEndsWith (pat s : Str) : Bool := pat.isSuffixOf s

/-- ASCII lower-casing of a string, for `eq_ignore_ascii_case`. -/
def asciiLower (s : Str) : Str := s.map Char.toLower

/-- ASCII upper-casing of a string, for `to_uppercase` on the ASCII unit
tokens the byte parser compares. -/
def asciiUpper (s : Str) : Str := s.map Char.toUpper

/-- `str::eq_ignore_ascii_case`. -/
def eqIc (a b : Str) : Bool := asciiLower a = asciiLower b

/-- ASCII decimal digit test. -/
def isDigitChar (c : Char) : Bool := '0' ≤ c && c ≤ '9'

/-- Value of a digit string (most significant first). -/
def digitsVal (l : Str) : Nat := l.foldl (fun a c => a * 10 + (c.toNat - 48)) 0

/-- `str::parse::<u16>()`: optional `'+'`, one or more ASCII digits, value
below `2^16`. -/
def parseU16? (s : Str) : Option Nat :=
  let t := match s with
    | '+' :: r => r
    | r => r
  if t ≠ [] ∧ t.all isDigitChar then
    let n := digitsVal t
    if n < 65536 then some n else none
  else none

/-- Split on a multi-character pattern, non-overlapping and left-to-right,
with a fuel argument (`fuel ≥ length` makes the fuel-exhaustion case
unreachable). -/
def splitOnFuel (sep : Str) : Nat → Str → List Str
  | _, [] => [[]]
  | 0, s => [s]
  | Nat.succ n, x :: xs =>
    if sep ≠ [] ∧ sep.isPrefixOf (x :: xs) then
      [] :: splitOnFuel sep n ((x :: xs).drop sep.length)
    else
      match splitOnFuel sep n xs with
      | r :: rs => (x :: r) :: rs
      | [] => [[x]]

/-- `str::split` with a string pattern. -/
def splitOnStr (sep s : Str) : List Str := splitOnFuel sep s.length s

/-- `str::replace(from, to)`: replace every non-overlapping occurrence. -/
def replaceStr (pat repl s : Str) : Str := List.intercalate repl (splitOnStr pat s)

/-- Split at a character predicate, keeping empty segments. -/
def splitPred (p : Char → Bool) : Str → List Str
  | [] => [[]]
  | x :: xs =>
    if p x then [] :: splitPred p xs
    else
      match splitPred p xs with
      | r :: rs => (x :: r) :: rs
      | [] => [[x]]

/-- `str::split_whitespace()`: whitespace-separated tokens, no empties. -/
def splitWs (s : Str) : List Str := (splitPred isWs s).filter (· ≠ [])

/-- An exact decimal rational `man / 10 ^ sc`, the model of the `f64`
magnitudes in the byte-unit parser. -/
structure Dec where
  man : Int
  sc : Nat
deriving DecidableEq, Repr

/-- Finish a decimal parse: an optional `e`/`E` exponent follows the mantissa
`sign * m / 10 ^ sc`; anything else is a parse failure. -/
def applyExp (sign : Int) (m : Nat) (sc : Nat) : Str → Option Dec
  | [] => some ⟨sign * m, sc⟩
  | c :: r =>
    if c = 'e' ∨ c = 'E' then
      let (es, digits) : Int × Str :=
        match r with
        | '+' :: t => (1, t)
        | '-' :: t => (-1, t)
        | t => (1, t)
      if digits ≠ [] ∧ digits.all isDigitChar then
        let e := digitsVal digits
        if 0 ≤ es then some ⟨sign * (m * 10 ^ e), sc⟩
        else some ⟨sign * m, sc + e⟩
      else none
    else none

/-- `str::parse::<f64>()` on finite decimal spellings: optional sign, digits
with an optional fractional part, optional exponent.  (`inf`/`nan` are
modelled as failures.) -/
def parseDecimal? (s : Str) : Option Dec :=
  let (sign, s1) : Int × Str :=
    match s with
    | '+' :: r => (1, r)
    | '-' :: r => (-1, r)
    | r => (1, r)
  let ip := s1.takeWhile isDigitChar
  let rest := s1.dropWhile isDigitChar
  match rest with
  | '.' :: r2 =>
    let fp := r2.takeWhile isDigitChar
    let rest2 := r2.dropWhile isDigitChar
    if ip = [] ∧ fp = [] then none
    else applyExp sign (digitsVal ip * 10 ^ fp.length + digitsVal fp) fp.length rest2
  | _ => if ip = [] then none else applyExp sign (digitsVal ip) 0 rest

/-- Multiply a decimal by a natural multiplier (the byte-unit factor). -/
def decMulNat (d : Dec) (m : Nat) : Dec := ⟨d.man * m, d.sc⟩

/-- The `as u64` cast on a finite value: truncate toward zero, negative
values saturate to `0`. -/
def decToU64 (d : Dec) : Nat :=
  if d.man < 0 then 0 else d.man.toNat / 10 ^ d.sc

/-- The `KIB` constant of the source. -/
def KIB : Nat := 1024

/-- The `MIB` constant of the source. -/
def MIB : Nat := KIB * 1024

/-- The `GIB` constant of the source. -/
def GIB : Nat := MIB * 1024

/-- `parse_bytes`: strip every `" received"`/`" sent"` occurrence, read a
numeric magnitude and a unit token, apply the binary multiplier; any failure
yields `0`. -/
def parse_bytes (s : Str) : Nat :=
  let s := replaceStr (" received".data) [] s
  let s := replaceStr (" sent".data) [] s
  let parts := splitWs s
  let val : Dec := ((parts.head?).bind parseDecimal?).getD ⟨0, 0⟩
  match (parts.get? 1).map asciiUpper with
  | some u =>
    if u = "B".data then decToU64 val
    else if u = "KIB".data then decToU64 (decMulNat val KIB)
    else if u = "MIB".data then decToU64 (decMulNat val MIB)
    else if u = "GIB".data then decToU64 (decMulNat val GIB)
    else if u = "TIB".data then decToU64 (decMulNat (decMulNat val GIB) 1024)
    else 0
  | none => 0

/-- `PeerInfo` of `types.rs`: one peer block of the live status text. -/
structure PeerInfo where
  public_key : Str
  endpoint : Option Str
  allowed_ips : List Str
  latest_handshake : Option Str
  transfer_rx : Nat
  transfer_tx : Nat
deriving DecidableEq, Repr

/-- `PeerInfo::default()`. -/
def PeerInfo.dflt : PeerInfo :=
  { public_key := [], endpoint := none, allowed_ips := [],
    latest_handshake := none, transfer_rx := 0, transfer_tx := 0 }

/-- `InterfaceInfo` of `types.rs`: the parsed live status of one interface. -/
structure InterfaceInfo where
  public_key : Str
  listen_port : Option Nat
  peers : List PeerInfo
deriving DecidableEq, Repr

/-- `InterfaceInfo::default()`. -/
def InterfaceInfo.dflt : InterfaceInfo :=
  { public_key := [], listen_port := none, peers := [] }

/-- The state of the `parse_wg_output` loop: the interface accumulator and
the currently open peer accumulator. -/
structure ParseState where
  info : InterfaceInfo
  peer : Option PeerInfo
deriving DecidableEq, Repr

/-- One iteration of the `parse_wg_output` loop on a (not yet trimmed)
line. -/
def parseLine (st : ParseState) (line : Str) : ParseState :=
  match splitOnceChar ':' (trim line) with
  | none => st
  | some (key, rawVal) =>
    let val := trim rawVal
    if key = "public key".data then
      match st.peer with
      | none => { st with info := { st.info with public_key := val } }
      | some _ => st
    else if key = "listening port".data then
      { st with info := { st.info with listen_port := parseU16? val } }
    else if key = "peer".data then
      { info := { st.info with peers := st.info.peers ++ st.peer.toList },
        peer := some { PeerInfo.dflt with public_key := val } }
    else
      match st.peer with
      | none => st
      | some p =>
        if key = "endpoint".data then
          { st with peer := some { p with endpoint := some val } }
        else if key = "allowed ips".data then
          { st with peer := some { p with allowed_ips := splitOnStr (", ".data) val } }
        else if key = "latest handshake".data then
          { st with peer := some { p with latest_handshake := some val } }
        else if key = "transfer".data then
          let parts := splitOnStr (", ".data) val
          let p := match parts.head? with
            | some rx => { p with transfer_rx := parse_bytes rx }
            | none => p
          let p := match parts.get? 1 with
            | some tx => { p with transfer_tx := parse_bytes tx }
            | none => p
          { st with peer := some p }
        else st

/-- `parse_wg_output`: fold the loop body over the lines, then flush the last
open peer accumulator. -/
def parse_wg_output (output : Str) : InterfaceInfo :=
  let final := (rustLines output).foldl parseLine ⟨InterfaceInfo.dflt, none⟩
  { final.info with peers := final.info.peers ++ final.peer.toList }

/-- The public key carried by a `peer:` line (after the source's trimming),
`none` for every other line.  This is the observation the peer-count claim is
stated through. -/
def peerKey? (line : Str) : Option Str :=
  match splitOnceChar ':' (trim line) with
  | none => none
  | some (key, rawVal) => if key = "peer".data then some (trim rawVal) else none

/-- The value carried by a `listening port:` line, `none` for every other
line. -/
def lpVal? (line : Str) : Option Str :=
  match splitOnceChar ':' (trim line) with
  | none => none
  | some (key, rawVal) =>
    if key = "listening port".data then some (trim rawVal) else none

/-- The `[Interface]`-section scan of `parse_interface_addresses`, carrying
the "currently inside `[Interface]`" flag over the remaining lines. -/
def interfaceAddrsGo : Bool → List Str → List Str
  | _, [] => []
  | inInterface, l :: ls =>
    let line := trim l
    if line.isEmpty || strStartsWith ("#".data) line || strStartsWith (";".data) line then
      interfaceAddrsGo inInterface ls
    else if strStartsWith ("[".data) line && strEndsWith ("]".data) line then
      interfaceAddrsGo (eqIc line ("[Interface]".data)) ls
    else if !inInterface then interfaceAddrsGo inInterface ls
    else
      match splitOnceChar '=' line with
      | none => interfaceAddrsGo inInterface ls
      | some (k, v) =>
        if eqIc (trim k) ("Address".data) then
          (((splitChar ',' v).map trim).filter (· ≠ [])) ++ interfaceAddrsGo inInterface ls
        else interfaceAddrsGo inInterface ls

/-- `parse_interface_addresses`: every element of every `Address` list in the
`[Interface]` section. -/
def parse_interface_addresses (content : Str) : List Str :=
  interfaceAddrsGo false (rustLines content)

/-- The scan of `parse_interface_value`: first match of `key` inside the
`[Interface]` section wins. -/
def interfaceValueGo (key : Str) : Bool → List Str → Option Str
  | _, [] => none
  | inInterface, l :: ls =>
    let line := trim l
    if line.isEmpty || strStartsWith ("#".data) line || strStartsWith (";".data) line then
      interfaceValueGo key inInterface ls
    else if strStartsWith ("[".data) line && strEndsWith ("]".data) line then
      interfaceValueGo key (eqIc line ("[Interface]".data)) ls
    else if !inInterface then interfaceValueGo key inInterface ls
    else
      match splitOnceChar '=' line with
      | none => interfaceValueGo key inInterface ls
      | some (k, v) =>
        if eqIc (trim k) key then some (trim v) else interfaceValueGo key inInterface ls

/-- `parse_interface_value`: a single trimmed value from the `[Interface]`
section. -/
def parse_interface_value (content key : Str) : Option Str :=
  interfaceValueGo key false (rustLines content)

/-- The `[Peer]`-section scan of `parse_peer_allowed_ips`. -/
def peerAllowedGo : Bool → List Str → List Str
  | _, [] => []
  | inPeer, l :: ls =>
    let line := trim l
    if line.isEmpty || strStartsWith ("#".data) line || strStartsWith (";".data) line then
      peerAllowedGo inPeer ls
    else if strStartsWith ("[".data) line && strEndsWith ("]".data) line then
      peerAllowedGo (eqIc line ("[Peer]".data)) ls
    else if !inPeer then peerAllowedGo inPeer ls
    else
      match splitOnceChar '=' line with
      | none => peerAllowedGo inPeer ls
      | some (k, v) =>
        if eqIc (trim k) ("AllowedIPs".data) then
          (((splitChar ',' v).map trim).filter (· ≠ [])) ++ peerAllowedGo inPeer ls
        else peerAllowedGo inPeer ls

/-- `parse_peer_allowed_ips`: every element of every `AllowedIPs` list in any
`[Peer]` section. -/
def parse_peer_allowed_ips (content : Str) : List Str :=
  peerAllowedGo false (rustLines content)

/-- The scan of `is_server_config`: any of `PostUp`/`PostDown`/`SaveConfig`
inside the `[Interface]` section. -/
def isServerGo : Bool → List Str → Bool
  | _, [] => false
  | inInterface, l :: ls =>
    let line := trim l
    if line.isEmpty || strStartsWith ("#".data) line || strStartsWith (";".data) line then
      isServerGo inInterface ls
    else if strStartsWith ("[".data) line && strEndsWith ("]".data) line then
      isServerGo (eqIc line ("[Interface]".data)) ls
    else if !inInterface then isServerGo inInterface ls
    else
      match splitOnceChar '=' line with
      | none => isServerGo inInterface ls
      | some (k, _) =>
        let k := trim k
        if eqIc k ("PostUp".data) || eqIc k ("PostDown".data) || eqIc k ("SaveConfig".data) then
          true
        else isServerGo inInterface ls

/-- `is_server_config`. -/
def is_server_config (content : Str) : Bool :=
  isServerGo false (rustLines content)

/-- The line scan of `is_full_tunnel_config`.  Note that the source tracks no
section here: every non-comment `AllowedIPs` line is examined, wherever it
occurs. -/
def is_full_tunnel_content (content : Str) : Bool :=
  (rustLines content).any fun l =>
    let line := trim l
    if strStartsWith ("#".data) line || strStartsWith (";".data) line then false
    else
      match splitOnceChar '=' line with
      | none => false
      | some (key, value) =>
        if eqIc (trim key) ("AllowedIPs".data) then
          ((splitChar ',' value).map trim).any fun v =>
            v == "0.0.0.0/0".data || v == "::/0".data
        else false

/-- `is_full_tunnel_config`: the configuration file's read result is passed
in (`none` models an unreadable file, which yields `false`). -/
def is_full_tunnel_config : Option Str → Bool
  | none => false
  | some content => is_full_tunnel_content content

/-- An IPv4 address as four octet values (each below 256 whenever produced
by the parser or the allocator). -/
structure Ipv4 where
  a : Nat
  b : Nat
  c : Nat
  d : Nat
deriving DecidableEq, Repr

/-- One dotted-decimal octet per `Ipv4Addr::from_str`: 1–3 digits, no sign,
no leading zero, value at most 255. -/
def parseOctet? : Str → Option Nat
  | [] => none
  | ['0'] => some 0
  | c :: rest =>
    if c = '0' then none
    else if (c :: rest).all isDigitChar then
      let n := digitsVal (c :: rest)
      if n ≤ 255 then some n else none
    else none

/-- `parse_ipv4_address`: trim, cut at an optional `'/'`, parse the host part
as dotted-decimal IPv4. -/
def parse_ipv4_address (value : Str) : Option Ipv4 :=
  let value := trim value
  let ip := match splitOnceChar '/' value with
    | some (a, _) => a
    | none => value
  match (splitChar '.' ip).mapM parseOctet? with
  | some [a, b, c, d] => some ⟨a, b, c, d⟩
  | _ => none

/-- The loop body of `next_peer_ipv4`: `step` is the current loop value,
the second argument counts the remaining iterations. -/
def nextPeerGo (base : Ipv4) (used : List Ipv4) : Nat → Nat → Option Ipv4
  | _, 0 => none
  | step, Nat.succ k =>
    let candidate := (base.d + step) % 256
    if candidate = 0 ∨ candidate = 255 then nextPeerGo base used (step + 1) k
    else
      let ip : Ipv4 := ⟨base.a, base.b, base.c, candidate⟩
      if ip ∈ used then nextPeerGo base used (step + 1) k else some ip

/-- `next_peer_ipv4`: scan `base.d.wrapping_add(step)` for `step` in
`1..=253`, skipping `0` and `255`, and return the first address not in
`used` (the `HashSet` is modelled as a list with membership). -/
def next_peer_ipv4 (base : Ipv4) (used : List Ipv4) : Option Ipv4 :=
  nextPeerGo base used 1 253

/-- The candidate sequence the `next_peer_ipv4` loop visits, as a list (same
iteration structure as `nextPeerGo`, without the membership test). -/
def peerScanGo (base : Ipv4) : Nat → Nat → List Ipv4
  | _, 0 => []
  | step, Nat.succ k =>
    let candidate := (base.d + step) % 256
    if candidate = 0 ∨ candidate = 255 then peerScanGo base (step + 1) k
    else ⟨base.a, base.b, base.c, candidate⟩ :: peerScanGo base (step + 1) k

/-- All candidate addresses `next_peer_ipv4` scans, in scan order: last
octets one past `base`'s own host octet onward (wrapping modulo 256), 253
steps, skipping `0` and `255`. -/
def peerScan (base : Ipv4) : List Ipv4 := peerScanGo base 1 253

/-- The `Error` enum of `error.rs` (`Io` payloads reduced to a message). -/
inductive Err where
  | io : Str → Err
  | wgTui : Str → Err
deriving DecidableEq, Repr

/-- The filesystem model: an association list from paths to file bytes. -/
abbrev FS := List (Str × Str)

/-- Read a file (`None` when the path is absent). -/
def fsRead? (fs : FS) (p : Str) : Option Str :=
  (fs.find? fun e => decide (e.1 = p)).map (·.2)

/-- Write (create or overwrite) a file. -/
def fsWrite (fs : FS) (p c : Str) : FS :=
  (p, c) :: fs.filter fun e => decide (e.1 ≠ p)

/-- Remove a file. -/
def fsRemove (fs : FS) (p : Str) : FS :=
  fs.filter fun e => decide (e.1 ≠ p)

/-- The observable outcome of one external command invocation. -/
structure CmdResult where
  success : Bool
  stdout : Str
  stderr : Str
deriving DecidableEq, Repr

/-- `wg_error`: the trimmed stderr if nonempty, otherwise the default
message, wrapped as a `WgTui` error. -/
def wg_error (output : CmdResult) (dflt : Str) : Err :=
  let msg := trim output.stderr
  .wgTui (if msg.isEmpty then dflt else msg)

/-- `wg_quick`: ok on success, otherwise `wg_error` with the default message
`"wg-quick <action> failed"`.  The command's outcome is supplied as data. -/
def wg_quick (output : CmdResult) (action : Str) : Except Err Unit :=
  if output.success then .ok ()
  else .error (wg_error output ("wg-quick ".data ++ action ++ " failed".data))

/-- The fixed configuration directory joined with `<name>.conf`. -/
def configPath (name : Str) : Str :=
  "/etc/wireguard/".data ++ name ++ ".conf".data

/-- `delete_tunnel`: when active, bring the interface down first (the
bring-down command's outcome is `downRes`); only then remove the
configuration file.  A missing file makes `fs::remove_file` fail with an
I/O error. -/
def delete_tunnel (downRes : CmdResult) (name : Str) (is_active : Bool) (fs : FS) :
    Except Err Unit × FS :=
  match (if is_active then wg_quick downRes ("down".data) else .ok ()) with
  | .error e => (.error e, fs)
  | .ok _ =>
    let path := configPath name
    match fsRead? fs path with
    | none => (.error (.io ("No such file or directory".data)), fs)
    | some _ => (.ok (), fsRemove fs path)

/-- `validate_interface_name`. -/
def validate_interface_name (name : Str) : Except Err Unit :=
  if name.isEmpty then .error (.wgTui ("Interface name is required".data))
  else if name.any (fun c => isWs c || decide (c = '/')) then
    .error (.wgTui ("Interface name cannot contain spaces or '/'".data))
  else .ok ()

/-- `normalize_list`: split on commas, trim, drop empties, rejoin. -/
def normalize_list (value : Str) : Str :=
  List.intercalate (", ".data) (((splitChar ',' value).map trim).filter (· ≠ []))

/-- `NewTunnelDraft` of `types.rs`. -/
structure NewTunnelDraft where
  name : Str
  private_key : Str
  address : Str
  dns : Str
  peer_public_key : Str
  allowed_ips : Str
  endpoint : Str
deriving DecidableEq, Repr

/-- `create_tunnel`: validate, then (only when everything validated and the
file is new) write the client configuration.  `fs::create_dir_all` creates
no files and is not modelled. -/
def create_tunnel (draft : NewTunnelDraft) (fs : FS) : Except Err Unit × FS :=
  let name := trim draft.name
  match validate_interface_name name with
  | .error e => (.error e, fs)
  | .ok _ =>
    let private_key := trim draft.private_key
    let address := trim draft.address
    let peer_public_key := trim draft.peer_public_key
    let allowed_ips := normalize_list draft.allowed_ips
    let endpoint := trim draft.endpoint
    if private_key.isEmpty || address.isEmpty || peer_public_key.isEmpty ||
        allowed_ips.isEmpty || endpoint.isEmpty then
      (.error (.wgTui ("Missing required fields".data)), fs)
    else
      let path := configPath name
      match fsRead? fs path with
      | some _ =>
        (.error (.wgTui ("Tunnel '".data ++ name ++ "' already exists".data)), fs)
      | none =>
        let dns := normalize_list draft.dns
        let content :=
          "[Interface]\n".data ++
          "PrivateKey = ".data ++ private_key ++ "\n".data ++
          "Address = ".data ++ address ++ "\n".data ++
          (if !dns.isEmpty then "DNS = ".data ++ dns ++ "\n".data else []) ++
          "\n".data ++
          "[Peer]\n".data ++
          "PublicKey = ".data ++ peer_public_key ++ "\n".data ++
          "AllowedIPs = ".data ++ allowed_ips ++ "\n".data ++
          "Endpoint = ".data ++ endpoint ++ "\n".data
        (.ok (), fsWrite fs path content)

/-- Split a file name at its last dot, per `Path::file_stem` /
`Path::extension`: no dot, or only a leading dot, gives no extension. -/
def fileSplit (f : Str) : Str × Option Str :=
  match splitOnceChar '.' f.reverse with
  | none => (f, none)
  | some (er, sr) => if sr.isEmpty then (f, none) else (sr.reverse, some er.reverse)

/-- `Path::file_stem` on a directory entry's file name. -/
def fileStem (f : Str) : Str := (fileSplit f).1

/-- `Path::extension` on a directory entry's file name. -/
def fileExtension? (f : Str) : Option Str := (fileSplit f).2

/-- The `Tunnel` entity of `types.rs`. -/
structure Tunnel where
  name : Str
  config_path : Str
  is_active : Bool
  interface : Option InterfaceInfo
deriving DecidableEq, Repr

/-- The filter/map pass of `discover_tunnels` over the directory listing:
keep `.conf` entries, name them by file stem, fill the remaining fields with
`Default::default()`. -/
def keepConf (entries : List Str) : List Tunnel :=
  entries.filterMap fun f =>
    match fileExtension? f with
    | some e =>
      if e = "conf".data then
        some { name := fileStem f, config_path := "/etc/wireguard/".data ++ f,
               is_active := false, interface := none }
      else none
    | none => none

/-- Byte-lexicographic strict order on strings (`Ord` on Rust `String`;
UTF-8 byte order and code-point order agree). -/
def strLt : Str → Str → Bool
  | [], [] => false
  | [], _ :: _ => true
  | _ :: _, [] => false
  | a :: as, b :: bs => if a < b then true else if b < a then false else strLt as bs

/-- The `sort_by(name cmp)` comparison as a weak order on tunnels. -/
def tunLe (x y : Tunnel) : Bool := !strLt y.name x.name

/-- Insert into a sorted list (the model of the source's stable sort). -/
def insertTun (t : Tunnel) : List Tunnel → List Tunnel
  | [] => [t]
  | x :: xs => if tunLe t x then t :: x :: xs else x :: insertTun t xs

/-- Insertion sort by tunnel name, modelling `Vec::sort_by`. -/
def sortTunnels : List Tunnel → List Tunnel
  | [] => []
  | x :: xs => insertTun x (sortTunnels xs)

/-- `discover_tunnels`: the directory listing is passed in (`none` models an
unreadable directory, which yields the empty list); keep `.conf` entries and
sort them by name. -/
def discover_tunnels : Option (List Str) → List Tunnel
  | none => []
  | some entries => sortTunnels (keepConf entries)

/-- Decimal rendering of one octet value (enough for values below 1000,
which covers every octet). -/
def natToStr (n : Nat) : Str :=
  if n < 10 then [Char.ofNat (48 + n)]
  else if n < 100 then [Char.ofNat (48 + n / 10), Char.ofNat (48 + n % 10)]
  else [Char.ofNat (48 + n / 100), Char.ofNat (48 + n / 10 % 10), Char.ofNat (48 + n % 10)]

/-- `Display` of an `Ipv4Addr`. -/
def ipv4Str (ip : Ipv4) : Str :=
  natToStr ip.a ++ '.' :: natToStr ip.b ++ '.' :: natToStr ip.c ++ '.' :: natToStr ip.d

/-- `PeerConfig` of `types.rs`. -/
structure PeerConfig where
  client_config_template : Str
  suggested_filename : Str
  listen_port : Nat
deriving DecidableEq, Repr

/-- The environment of subprocess outcomes and live state that
`add_server_peer` and `sync_interface_with_content` consume: the `wg genkey`
outcome, the `wg pubkey` outcome as a function of the key piped in, the
`ip link show` probe, the success of the two temporary-file writes, and the
`wg-quick strip` / `wg syncconf` outcomes. -/
structure WgEnv where
  genkey : CmdResult
  pubkey : Str → CmdResult
  active : Bool
  tempConfWriteOk : Bool
  stripRes : CmdResult
  tempStrippedWriteOk : Bool
  syncRes : CmdResult

/-- `generate_private_key`: `wg genkey`, requiring success and nonempty
trimmed output. -/
def generate_private_key (env : WgEnv) : Except Err Str :=
  if !env.genkey.success then .error (wg_error env.genkey ("wg genkey failed".data))
  else
    let key := trim env.genkey.stdout
    if key.isEmpty then .error (.wgTui ("wg genkey returned an empty key".data))
    else .ok key

/-- `derive_public_key`: `wg pubkey` fed with the private key, requiring
success and nonempty trimmed output. -/
def derive_public_key (env : WgEnv) (private_key : Str) : Except Err Str :=
  let output := env.pubkey private_key
  if !output.success then .error (wg_error output ("wg pubkey failed".data))
  else
    let key := trim output.stdout
    if key.isEmpty then .error (.wgTui ("wg pubkey returned an empty key".data))
    else .ok key

/-- `generate_keypair`. -/
def generate_keypair (env : WgEnv) : Except Err (Str × Str) := do
  let private_key ← generate_private_key env
  let public_key ← derive_public_key env private_key
  return (private_key, public_key)

/-- `std::env::temp_dir()` modelled as the fixed path `/tmp/`. -/
def tempDir : Str := "/tmp/".data

/-- The first temporary path of `sync_interface_with_content`. -/
def tempConfPath (name : Str) : Str := tempDir ++ "wg-tui-".data ++ name ++ ".conf".data

/-- The second temporary path of `sync_interface_with_content`. -/
def tempStrippedPath (name : Str) : Str :=
  tempDir ++ "wg-tui-".data ++ name ++ ".stripped".data

/-- `sync_interface_with_content`: write the full config to a temp file, run
`wg-quick strip` into a second temp file, run `wg syncconf`, then remove both
temp files best-effort.  Temp-file write failures surface as I/O errors. -/
def sync_interface_with_content (env : WgEnv) (name content : Str) (fs : FS) :
    Except Err Unit × FS :=
  let temp_conf := tempConfPath name
  let temp_stripped := tempStrippedPath name
  if !env.tempConfWriteOk then (.error (.io ("failed to write temp config".data)), fs)
  else
    let fs := fsWrite fs temp_conf content
    if !env.stripRes.success then
      (.error (wg_error env.stripRes ("wg-quick strip failed".data)), fs)
    else if !env.tempStrippedWriteOk then
      (.error (.io ("failed to write stripped config".data)), fs)
    else
      let fs := fsWrite fs temp_stripped env.stripRes.stdout
      if !env.syncRes.success then
        (.error (wg_error env.syncRes ("wg syncconf failed".data)), fs)
      else (.ok (), fsRemove (fsRemove fs temp_conf) temp_stripped)

/-- Append the new `[Peer]` block to the configuration text, ensuring a
trailing newline first (the in-memory step of `add_server_peer`). -/
def appendPeerBlock (content public_key peer_address : Str) : Str :=
  (if strEndsWith ("\n".data) content then content else content ++ "\n".data) ++
  "\n".data ++ "[Peer]\n".data ++
  "PublicKey = ".data ++ public_key ++ "\n".data ++
  "AllowedIPs = ".data ++ peer_address ++ "\n".data

/-- The `__DNS_BLOCK__` placeholder constant. -/
def DNS_BLOCK_PLACEHOLDER : Str := "__DNS_BLOCK__".data

/-- The `__ENDPOINT__` placeholder constant. -/
def ENDPOINT_PLACEHOLDER : Str := "__ENDPOINT__".data

/-- The client-config template `add_server_peer` returns, with the two
placeholders unresolved. -/
def clientTemplate (peer_private_key peer_address server_public_key : Str) : Str :=
  "[Interface]\nPrivateKey = ".data ++ peer_private_key ++
  "\nAddress = ".data ++ peer_address ++ "\n".data ++
  DNS_BLOCK_PLACEHOLDER ++
  "\n[Peer]\nPublicKey = ".data ++ server_public_key ++
  "\nAllowedIPs = 0.0.0.0/0, ::/0\nEndpoint = ".data ++ ENDPOINT_PLACEHOLDER ++ "\n".data

/-- `add_server_peer`: read and classify the config, find the server's IPv4
base, collect the used addresses, allocate the next peer address, generate
keys, append the `[Peer]` block, live-resync when the interface is active,
and only then persist the updated text. -/
def add_server_peer (env : WgEnv) (name : Str) (fs : FS) : Except Err PeerConfig × FS :=
  let path := configPath name
  match fsRead? fs path with
  | none =>
    (.error (.wgTui ("Could not read config for tunnel '".data ++ name ++ "'".data)), fs)
  | some content =>
    if !is_server_config content then
      (.error (.wgTui ("Selected tunnel is not a server config".data)), fs)
    else
      match (parse_interface_addresses content).find?
          (fun addr => (parse_ipv4_address addr).isSome) with
      | none => (.error (.wgTui ("Server config has no IPv4 address".data)), fs)
      | some address =>
        match parse_ipv4_address address with
        | none => (.error (.wgTui ("Server IPv4 address is invalid".data)), fs)
        | some base_ip =>
          match parse_interface_value content ("PrivateKey".data) with
          | none => (.error (.wgTui ("Server config missing PrivateKey".data)), fs)
          | some private_key =>
            match parse_interface_value content ("ListenPort".data) with
            | none => (.error (.wgTui ("Server config missing ListenPort".data)), fs)
            | some lp =>
              match parseU16? lp with
              | none => (.error (.wgTui ("Listen port must be a valid number".data)), fs)
              | some listen_port =>
                let used :=
                  base_ip :: (parse_peer_allowed_ips content).filterMap parse_ipv4_address
                match next_peer_ipv4 base_ip used with
                | none =>
                  (.error (.wgTui ("No available peer address in the server /24".data)), fs)
                | some peer_ip =>
                  let peer_address := ipv4Str peer_ip ++ "/32".data
                  match generate_keypair env with
                  | .error e => (.error e, fs)
                  | .ok (peer_private_key, peer_public_key) =>
                    match derive_public_key env private_key with
                    | .error e => (.error e, fs)
                    | .ok server_public_key =>
                      let new_content := appendPeerBlock content peer_public_key peer_address
                      let (syncRes, fs) :=
                        if env.active then sync_interface_with_content env name new_content fs
                        else (.ok (), fs)
                      match syncRes with
                      | .error e => (.error e, fs)
                      | .ok _ =>
                        let fs := fsWrite fs path new_content
                        (.ok { client_config_template :=
                                 clientTemplate peer_private_key peer_address server_public_key,
                               suggested_filename :=
                                 name ++ "-peer-".data ++ ipv4Str peer_ip ++ ".conf".data,
                               listen_port := listen_port }, fs)

/-- Modelled from the spec: the byte-unit parser exactly as claim C6 words
it — strip a *trailing* `" received"`/`" sent"` (rather than every
occurrence), then proceed as the source does.  Used only for comparison with
`parse_bytes`. -/
def parse_bytes_claimed (s : Str) : Nat :=
  let s := if strEndsWith (" received".data) s then s.take (s.length - 9) else s
  let s := if strEndsWith (" sent".data) s then s.take (s.length - 5) else s
  let parts := splitWs s
  let val : Dec := ((parts.head?).bind parseDecimal?).getD ⟨0, 0⟩
  match (parts.get? 1).map asciiUpper with
  | some u =>
    if u = "B".data then decToU64 val
    else if u = "KIB".data then decToU64 (decMulNat val KIB)
    else if u = "MIB".data then decToU64 (decMulNat val MIB)
    else if u = "GIB".data then decToU64 (decMulNat val GIB)
    else if u = "TIB".data then decToU64 (decMulNat (decMulNat val GIB) 1024)
    else 0
  | none => 0

/-- The public keys a parse state accounts for: the flushed peers followed by
the open accumulator, in order. -/
def pkList (st : ParseState) : List Str :=
  st.info.peers.map (·.public_key) ++ (st.peer.map (·.public_key)).toList

/-- The byte-unit multiplier table of the claim: upper-cased unit token to
its binary multiplier, `none` for an unrecognized unit. -/
def unitMult? (u : Str) : Option Nat :=
  if u = "B".data then some 1
  else if u = "KIB".data then some KIB
  else if u = "MIB".data then some MIB
  else if u = "GIB".data then some GIB
  else if u = "TIB".data then some (GIB * 1024)
  else none

/-- A server configuration whose `/24` is fully occupied: the base address
is `10.0.0.1/24` and a peer block claims every host `10.0.0.2/32` through
`10.0.0.254/32`, so every candidate the allocator can scan is used. -/
def fullServerCfg : Str :=
  ("[Interface]\nAddress = 10.0.0.1/24\nSaveConfig = true\nPrivateKey = KEY\n".data
    ++ "ListenPort = 51820\n\n[Peer]\nPublicKey = P\nAllowedIPs = ".data)
  ++ List.intercalate (", ".data)
      ((List.range 253).map fun i => "10.0.0.".data ++ natToStr (i + 2) ++ "/32".data)
  ++ "\n".data

/-- An environment in which every external command succeeds trivially. -/
def wgEnvTrivial : WgEnv :=
  { genkey := ⟨true, "PRIV".data, []⟩, pubkey := fun _ => ⟨true, "PUB".data, []⟩,
    active := false, tempConfWriteOk := true, stripRes := ⟨true, "S".data, []⟩,
    tempStrippedWriteOk := true, syncRes := ⟨true, [], []⟩ }

/-- A server configuration with one free host (`10.0.0.3`) for the live
resync scenario. -/
def smallServerCfg : Str :=
  ("[Interface]\nAddress = 10.0.0.1/24\nSaveConfig = true\nPrivateKey = KEY\n".data
    ++ "ListenPort = 51820\n\n[Peer]\nPublicKey = P\nAllowedIPs = 10.0.0.2/32\n".data)

/-- An environment in which the interface is active and `wg-quick strip`
fails with stderr `strip boom`; everything before it succeeds. -/
def envStripFail : WgEnv :=
  { genkey := ⟨true, "PRIV".data, []⟩, pubkey := fun _ => ⟨true, "PUB".data, []⟩,
    active := true, tempConfWriteOk := true, stripRes := ⟨false, [], "strip boom".data⟩,
    tempStrippedWriteOk := true, syncRes := ⟨true, [], []⟩ }

theorem kw_public_ne_peer : "public key".data ≠ "peer".data := by decide

theorem kw_listening_ne_peer : "listening port".data ≠ "peer".data := by decide

theorem kw_public_ne_listening : "public key".data ≠ "listening port".data := by decide

theorem kw_peer_ne_public : "peer".data ≠ "public key".data := by decide

theorem kw_peer_ne_listening : "peer".data ≠ "listening port".data := by decide

theorem parseLine_pk (st : ParseState) (line : Str) :
    pkList (parseLine st line) = pkList st ++ (peerKey? line).toList := by
  unfold parseLine peerKey?
  cases h : splitOnceChar ':' (trim line) with
  | none => simp [pkList]
  | some kv =>
    obtain ⟨key, v⟩ := kv
    by_cases h1 : key = "public key".data
    · subst h1
      simp only [if_pos rfl, if_neg kw_public_ne_peer]
      cases hp : st.peer <;> simp [pkList, hp]
    · simp only [if_neg h1]
      by_cases h2 : key = "listening port".data
      · subst h2
        simp only [if_pos rfl, if_neg kw_listening_ne_peer]
        simp [pkList]
      · simp only [if_neg h2]
        by_cases h3 : key = "peer".data
        · subst h3
          simp only [if_pos rfl]
          cases hp : st.peer <;> simp [pkList, hp]
        · simp only [if_neg h3]
          cases hp : st.peer with
          | none => simp [pkList, hp]
          | some p =>
            by_cases h4 : key = "endpoint".data
            · simp [h4, pkList, hp]
            · simp only [if_neg h4]
              by_cases h5 : key = "allowed ips".data
              · simp [h5, pkList, hp]
              · simp only [if_neg h5]
                by_cases h6 : key = "latest handshake".data
                · simp [h6, pkList, hp]
                · simp only [if_neg h6]
                  by_cases h7 : key = "transfer".data
                  · simp only [if_pos h7]
                    cases hr : (splitOnStr (", ".data) (trim v)).head? <;>
                      cases ht : (splitOnStr (", ".data) (trim v)).get? 1 <;>
                        simp [pkList, hp, hr, ht]
                  · simp [if_neg h7, pkList, hp]

theorem foldl_parseLine_pk (ls : List Str) (st : ParseState) :
    pkList (ls.foldl parseLine st) = pkList st ++ ls.filterMap peerKey? := by
  induction ls generalizing st with
  | nil => simp
  | cons l ls ih =>
    simp only [List.foldl_cons, List.filterMap_cons]
    rw [ih, parseLine_pk]
    cases h : peerKey? l <;> simp [h]

/-- C1: for every status text, `parse_wg_output` produces exactly one peer
entry per `peer:` line, in input order (the peers' public keys are exactly
the `peer:` line values in order, so in particular the trailing peer block
is flushed at end of input), and hence exactly N peers for N `peer:`
lines. -/
theorem c1_parse_peers_per_peer_line (s : Str) :
    (parse_wg_output s).peers.map (·.public_key) = (rustLines s).filterMap peerKey?
    ∧ (parse_wg_output s).peers.length = ((rustLines s).filterMap peerKey?).length := by
  have h := foldl_parseLine_pk (rustLines s) ⟨InterfaceInfo.dflt, none⟩
  have hmap : (parse_wg_output s).peers.map (·.public_key)
      = (rustLines s).filterMap peerKey? := by
    simp only [parse_wg_output]
    generalize hF : List.foldl parseLine ⟨InterfaceInfo.dflt, none⟩ (rustLines s) = F at h ⊢
    simp only [pkList, InterfaceInfo.dflt] at h
    cases hfp : F.peer with
    | none => rw [hfp] at h; simpa using h
    | some p => rw [hfp] at h; simpa using h
  exact ⟨hmap, by rw [← hmap, List.length_map]⟩

theorem parseLine_lp (st : ParseState) (line : Str) :
    (parseLine st line).info.listen_port =
      match lpVal? line with
      | some v => parseU16? v
      | none => st.info.listen_port := by
  unfold parseLine lpVal?
  cases h : splitOnceChar ':' (trim line) with
  | none => simp
  | some kv =>
    obtain ⟨key, v⟩ := kv
    by_cases h1 : key = "public key".data
    · subst h1
      simp only [if_pos rfl, if_neg kw_public_ne_listening]
      cases hp : st.peer <;> simp [hp]
    · simp only [if_neg h1]
      by_cases h2 : key = "listening port".data
      · subst h2
        simp only [if_pos rfl]
        simp
      · simp only [if_neg h2]
        by_cases h3 : key = "peer".data
        · subst h3
          simp only [if_pos rfl, if_neg kw_peer_ne_listening]
          simp
        · simp only [if_neg h3]
          cases hp : st.peer with
          | none => simp [hp]
          | some p =>
            by_cases h4 : key = "endpoint".data
            · simp [h4, hp]
            · simp only [if_neg h4]
              by_cases h5 : key = "allowed ips".data
              · simp [h5, hp]
              · simp only [if_neg h5]
                by_cases h6 : key = "latest handshake".data
                · simp [h6, hp]
                · simp only [if_neg h6]
                  by_cases h7 : key = "transfer".data
                  · simp [h7, hp]
                  · simp [if_neg h7, hp]

theorem foldl_parseLine_lp (ls : List Str) (st : ParseState) :
    (ls.foldl parseLine st).info.listen_port =
      match (ls.filterMap lpVal?).getLast? with
      | some v => parseU16? v
      | none => st.info.listen_port := by
  induction ls generalizing st with
  | nil => simp
  | cons l ls ih =>
    simp only [List.foldl_cons, List.filterMap_cons]
    rw [ih]
    have hpl := parseLine_lp st l
    cases hl : lpVal? l with
    | none =>
      rw [hl] at hpl
      cases hg : (ls.filterMap lpVal?).getLast? with
      | none => simp [hl, hg, hpl]
      | some u => simp [hl, hg]
    | some v =>
      rw [hl] at hpl
      cases hls : ls.filterMap lpVal? with
      | nil => simp [hl, hls, hpl]
      | cons w ws =>
        cases hg : (w :: ws).getLast? with
        | none => simp at hg
        | some u => simp [hl, hls, hg, List.getLast?_cons_cons]

/-- C7 counterexample: a first `listening port:` line establishes `some
51820`, but a later `listening port:` line whose value does not parse is not
ignored — it resets the listen port to `none` instead of leaving the earlier
value unchanged. -/
theorem c7_counterexample :
    (parse_wg_output ("listening port: 51820".data)).listen_port = some 51820
    ∧ (parse_wg_output ("listening port: 51820\nlistening port: x".data)).listen_port
        = none := by
  constructor <;> rfl

/-- C7 (amended): a `listening port: V` line always overwrites the interface
listen port — with `V` parsed as an integer when it parses, and with `none`
when it does not — so the final listen port is determined by the last
`listening port:` line alone (and is `none` when there is none). -/
theorem c7_amended_listen_port_last_wins (s : Str) :
    (parse_wg_output s).listen_port =
      match ((rustLines s).filterMap lpVal?).getLast? with
      | some v => parseU16? v
      | none => none := by
  have h := foldl_parseLine_lp (rustLines s) ⟨InterfaceInfo.dflt, none⟩
  cases hg : ((rustLines s).filterMap lpVal?).getLast? with
  | none =>
    rw [hg] at h
    simp only [parse_wg_output]
    simpa [InterfaceInfo.dflt] using h
  | some v =>
    rw [hg] at h
    simp only [parse_wg_output]
    simpa using h

/-- C2 counterexample: `is_full_tunnel_config` tracks no section, so an
`AllowedIPs = 0.0.0.0/0` line that is *not* inside any `[Peer]` section
(here it is in the `[Interface]` section) still makes the result `true`,
contradicting the claim that such a line does not. -/
theorem c2_counterexample :
    is_full_tunnel_config (some ("[Interface]\nAllowedIPs = 0.0.0.0/0\n".data)) = true := by
  rfl

/-- C2 (amended): `is_full_tunnel_config` is `true` iff some non-comment
line — in any section or none — has key `AllowedIPs` (trimmed,
ASCII-case-insensitively) whose comma-split, trimmed value list contains the
literal `0.0.0.0/0` or `::/0`; in particular it is `true` for a `[Peer]`
section with `AllowedIPs = 0.0.0.0/0, ::/0`, `false` when the only
`AllowedIPs` value is `10.0.0.0/24`, and `false` for an unreadable file. -/
theorem c2_amended_full_tunnel (c : Str) :
    (is_full_tunnel_config (some c) = true ↔
      ∃ l ∈ rustLines c,
        strStartsWith ("#".data) (trim l) = false
        ∧ strStartsWith (";".data) (trim l) = false
        ∧ ∃ k v, splitOnceChar '=' (trim l) = some (k, v)
            ∧ eqIc (trim k) ("AllowedIPs".data) = true
            ∧ ∃ e ∈ (splitChar ',' v).map trim,
                e = "0.0.0.0/0".data ∨ e = "::/0".data)
    ∧ is_full_tunnel_config (some ("[Peer]\nAllowedIPs = 0.0.0.0/0, ::/0\n".data)) = true
    ∧ is_full_tunnel_config (some ("[Peer]\nAllowedIPs = 10.0.0.0/24\n".data)) = false
    ∧ is_full_tunnel_config none = false := by
  refine ⟨?_, rfl, rfl, rfl⟩
  simp only [is_full_tunnel_config, is_full_tunnel_content, List.any_eq_true]
  constructor
  · rintro ⟨l, hl, hbody⟩
    refine ⟨l, hl, ?_⟩
    cases h1 : strStartsWith ("#".data) (trim l) with
    | true => simp [h1] at hbody
    | false =>
    cases h2 : strStartsWith (";".data) (trim l) with
    | true => simp [h2] at hbody
    | false =>
    simp only [h1, h2, Bool.or_self, Bool.false_eq_true, if_false] at hbody
    cases h3 : splitOnceChar '=' (trim l) with
    | none => simp only [h3] at hbody; exact absurd hbody (by simp)
    | some kv =>
      obtain ⟨k, v⟩ := kv
      simp only [h3] at hbody
      cases h4 : eqIc (trim k) ("AllowedIPs".data) with
      | false => simp [h4] at hbody
      | true =>
        simp only [h4, if_true] at hbody
        rw [List.any_eq_true] at hbody
        obtain ⟨e, he, hor⟩ := hbody
        refine ⟨rfl, rfl, k, v, rfl, h4, e, he, ?_⟩
        rcases Bool.or_eq_true_iff.mp hor with h | h
        · exact Or.inl (by simpa using h)
        · exact Or.inr (by simpa using h)
  · rintro ⟨l, hl, h1, h2, k, v, h3, h4, e, he, hor⟩
    refine ⟨l, hl, ?_⟩
    simp only [h1, h2, h3, h4, Bool.or_self, Bool.false_eq_true, if_false, if_true,
      List.any_eq_true]
    refine ⟨e, he, ?_⟩
    rcases hor with h | h <;> simp [h]

theorem nextPeerGo_eq_find (base : Ipv4) (used : List Ipv4) :
    ∀ (k step : Nat), nextPeerGo base used step k
      = (peerScanGo base step k).find? (fun ip => decide (ip ∉ used)) := by
  intro k
  induction k with
  | zero => intro step; rfl
  | succ k ih =>
    intro step
    simp only [nextPeerGo, peerScanGo]
    by_cases h : (base.d + step) % 256 = 0 ∨ (base.d + step) % 256 = 255
    · simp only [if_pos h]
      exact ih (step + 1)
    · simp only [if_neg h]
      by_cases hm : (⟨base.a, base.b, base.c, (base.d + step) % 256⟩ : Ipv4) ∈ used
      · rw [List.find?_cons_of_neg _ (by simpa using hm), ih (step + 1)]
        simp [hm]
      · rw [List.find?_cons_of_pos _ (by simpa using hm)]
        simp [hm]

theorem mem_peerScanGo (base : Ipv4) :
    ∀ (k step : Nat) (ip : Ipv4), ip ∈ peerScanGo base step k → ip.d ≠ 0 ∧ ip.d ≠ 255 := by
  intro k
  induction k with
  | zero => intro step ip h; simp [peerScanGo] at h
  | succ k ih =>
    intro step ip h
    simp only [peerScanGo] at h
    by_cases hc : (base.d + step) % 256 = 0 ∨ (base.d + step) % 256 = 255
    · rw [if_pos hc] at h
      exact ih _ _ h
    · rw [if_neg hc] at h
      rcases List.mem_cons.mp h with rfl | h
      · push_neg at hc
        exact ⟨by simpa using hc.1, by simpa using hc.2⟩
      · exact ih _ _ h

/-- C5: `next_peer_ipv4` returns exactly the first element of its candidate
scan (last octets one past the base's own host octet onward, 253 ascending
steps wrapping modulo 256, skipping `0` and `255`) that is not in the used
set; hence a returned address is never in the used set and its host octet is
never `0` or `255`, and the result is `none` (`AllocationExhausted`) exactly
when every candidate is used. -/
theorem c5_next_peer_ipv4 (base : Ipv4) (used : List Ipv4) :
    next_peer_ipv4 base used = (peerScan base).find? (fun ip => decide (ip ∉ used))
    ∧ (∀ ip, next_peer_ipv4 base used = some ip → ip ∉ used ∧ ip.d ≠ 0 ∧ ip.d ≠ 255)
    ∧ (next_peer_ipv4 base used = none ↔ ∀ ip ∈ peerScan base, ip ∈ used) := by
  have heq : next_peer_ipv4 base used
      = (peerScan base).find? (fun ip => decide (ip ∉ used)) :=
    nextPeerGo_eq_find base used 253 1
  refine ⟨heq, ?_, ?_⟩
  · intro ip h
    rw [heq] at h
    have hp := List.find?_some h
    have hmem := List.mem_of_find?_eq_some h
    exact ⟨by simpa using hp, mem_peerScanGo base 253 1 ip hmem⟩
  · rw [heq, List.find?_eq_none]
    constructor
    · intro h ip hip
      simpa using h ip hip
    · intro h ip hip
      simpa using h ip hip

/-- Witness for C5 at a concrete input: from base `10.0.0.1` with used set
`{10.0.0.2}` the allocator returns `10.0.0.3`, which is not in the used set
and whose host octet is neither `0` nor `255`. -/
theorem c5_witness :
    (⟨10, 0, 0, 3⟩ : Ipv4) ∉ ([⟨10, 0, 0, 2⟩] : List Ipv4)
    ∧ (⟨10, 0, 0, 3⟩ : Ipv4).d ≠ 0 ∧ (⟨10, 0, 0, 3⟩ : Ipv4).d ≠ 255 :=
  (c5_next_peer_ipv4 ⟨10, 0, 0, 1⟩ [⟨10, 0, 0, 2⟩]).2.1 ⟨10, 0, 0, 3⟩ (by rfl)

/-- C3: deleting an active tunnel brings the interface down first — when the
bring-down command fails, `delete_tunnel` returns that failure and the
filesystem (in particular the configuration file) is untouched; the file is
removed only after the bring-down succeeded. -/
theorem c3_delete_tunnel_down_first (downRes : CmdResult) (name : Str) (fs : FS) :
    (downRes.success = false →
      delete_tunnel downRes name true fs
        = (.error (wg_error downRes ("wg-quick down failed".data)), fs))
    ∧ (downRes.success = true → ∀ c, fsRead? fs (configPath name) = some c →
        delete_tunnel downRes name true fs = (.ok (), fsRemove fs (configPath name))) := by
  have hmsg : "wg-quick ".data ++ "down".data ++ " failed".data
      = "wg-quick down failed".data := by decide
  constructor
  · intro h
    simp [delete_tunnel, wg_quick, h, hmsg]
  · intro h c hc
    simp [delete_tunnel, wg_quick, h, hc]

/-- Witness for C3 at a concrete input: a failing bring-down (stderr `boom`)
on an active tunnel returns the subprocess failure and leaves the
filesystem unchanged. -/
theorem c3_witness :
    delete_tunnel ⟨false, [], "boom".data⟩ ("wg0".data) true
        [(configPath ("wg0".data), "x".data)]
      = (.error (wg_error ⟨false, [], "boom".data⟩ ("wg-quick down failed".data)),
         [(configPath ("wg0".data), "x".data)]) :=
  (c3_delete_tunnel_down_first ⟨false, [], "boom".data⟩ ("wg0".data)
    [(configPath ("wg0".data), "x".data)]).1 rfl

theorem validate_err_shape (n : Str) (e : Err)
    (h : validate_interface_name n = .error e) : ∃ m, e = .wgTui m := by
  unfold validate_interface_name at h
  split_ifs at h
  · injection h with h
    exact ⟨_, h.symm⟩
  · injection h with h
    exact ⟨_, h.symm⟩

theorem normalize_list_nil (v : Str) (h : ∀ e ∈ splitChar ',' v, trim e = []) :
    normalize_list v = [] := by
  unfold normalize_list
  have hf : ((splitChar ',' v).map trim).filter (· ≠ []) = [] := by
    rw [List.filter_eq_nil_iff]
    intro a ha
    obtain ⟨e, he, rfl⟩ := List.mem_map.mp ha
    simp [h e he]
  rw [hf]
  rfl

/-- C9: `create_tunnel` fails with a validation (`WgTui`) error and leaves
the filesystem unchanged — no configuration file is created — whenever the
trimmed interface name is invalid (empty, or containing whitespace or `/`)
or any required field (private key, address, peer public key, allowed IPs,
endpoint) is empty after trimming, where the comma-separated allowed-IPs
list counts as empty when all its elements trim to empty. -/
theorem c9_create_tunnel_validation (draft : NewTunnelDraft) (fs : FS)
    (h : trim draft.name = []
      ∨ (trim draft.name).any (fun c => isWs c || decide (c = '/')) = true
      ∨ trim draft.private_key = []
      ∨ trim draft.address = []
      ∨ trim draft.peer_public_key = []
      ∨ (∀ e ∈ splitChar ',' draft.allowed_ips, trim e = [])
      ∨ trim draft.endpoint = []) :
    ∃ msg, create_tunnel draft fs = (.error (.wgTui msg), fs) := by
  cases hv : validate_interface_name (trim draft.name) with
  | error e =>
    obtain ⟨m, rfl⟩ := validate_err_shape _ _ hv
    exact ⟨m, by simp [create_tunnel, hv]⟩
  | ok u =>
    have hname : ¬ (trim draft.name = []
        ∨ (trim draft.name).any (fun c => isWs c || decide (c = '/')) = true) := by
      unfold validate_interface_name at hv
      split_ifs at hv with ha hb
      rintro (hc | hc)
      · exact ha (by simp [hc])
      · exact hb hc
    refine ⟨"Missing required fields".data, ?_⟩
    rcases h with h | h | h | h | h | h | h
    · exact absurd (Or.inl h) hname
    · exact absurd (Or.inr h) hname
    · simp [create_tunnel, hv, h]
    · simp [create_tunnel, hv, h]
    · simp [create_tunnel, hv, h]
    · simp [create_tunnel, hv, normalize_list_nil _ h]
    · simp [create_tunnel, hv, h]

/-- Witness for C9 at a concrete input: a draft whose peer public key trims
to empty fails validation and creates nothing on an empty filesystem. -/
theorem c9_witness :
    ∃ msg, create_tunnel
      { name := "wg1".data, private_key := "K".data, address := "10.0.0.2/32".data,
        dns := [], peer_public_key := "  ".data, allowed_ips := "10.0.0.1/32".data,
        endpoint := "example.com:51820".data } []
      = (.error (.wgTui msg), []) :=
  c9_create_tunnel_validation _ _
    (Or.inr (Or.inr (Or.inr (Or.inr (Or.inl (by decide))))))

/-- C4: when a server config's `/24` is fully occupied — every candidate the
allocator scans is already in the used set built from the server's own
address and the parsed `AllowedIPs` hosts of its peers — `add_server_peer`
fails with the allocation-exhausted error and the filesystem, in particular
the on-disk configuration file, is byte-for-byte unchanged. -/
theorem c4_add_server_peer_exhausted (env : WgEnv) (name : Str) (fs : FS)
    (content addr : Str) (base : Ipv4)
    (hread : fsRead? fs (configPath name) = some content)
    (hserver : is_server_config content = true)
    (haddr : (parse_interface_addresses content).find?
        (fun a => (parse_ipv4_address a).isSome) = some addr)
    (hbase : parse_ipv4_address addr = some base)
    (hpriv : ∃ pk, parse_interface_value content ("PrivateKey".data) = some pk)
    (hport : ∃ lp p, parse_interface_value content ("ListenPort".data) = some lp
        ∧ parseU16? lp = some p)
    (hfull : ∀ ip ∈ peerScan base,
        ip ∈ base :: (parse_peer_allowed_ips content).filterMap parse_ipv4_address) :
    add_server_peer env name fs
      = (.error (.wgTui ("No available peer address in the server /24".data)), fs) := by
  have hnone : next_peer_ipv4 base
      (base :: (parse_peer_allowed_ips content).filterMap parse_ipv4_address) = none := by
    have he := nextPeerGo_eq_find base
      (base :: (parse_peer_allowed_ips content).filterMap parse_ipv4_address) 253 1
    rw [next_peer_ipv4, he, List.find?_eq_none]
    intro ip hip
    simp only [decide_eq_true_eq, not_not]
    exact hfull ip hip
  obtain ⟨pk, hpk⟩ := hpriv
  obtain ⟨lp, p, hlp, hp⟩ := hport
  unfold add_server_peer
  simp only [hread, hserver, haddr, hbase, hpk, hlp, hp, hnone, Bool.not_true,
    Bool.false_eq_true, if_false]

set_option maxRecDepth 40000 in
set_option maxHeartbeats 4000000 in
/-- Witness for C4 at a concrete input: the fully occupied `/24` server
config `fullServerCfg` makes `add_server_peer` fail with allocation
exhaustion, leaving the filesystem unchanged. -/
theorem c4_witness :
    add_server_peer wgEnvTrivial ("wg0".data) [(configPath ("wg0".data), fullServerCfg)]
      = (.error (.wgTui ("No available peer address in the server /24".data)),
         [(configPath ("wg0".data), fullServerCfg)]) :=
  c4_add_server_peer_exhausted wgEnvTrivial ("wg0".data)
    [(configPath ("wg0".data), fullServerCfg)]
    fullServerCfg ("10.0.0.1/24".data) ⟨10, 0, 0, 1⟩
    rfl (by decide) (by decide) rfl
    ⟨"KEY".data, rfl⟩ ⟨"51820".data, 51820, rfl, rfl⟩
    (by decide)

theorem find?_entry_filter (fs : FS) (p q : Str) (h : q ≠ p) :
    (fs.filter fun e => decide (e.1 ≠ p)).find? (fun e => decide (e.1 = q))
      = fs.find? (fun e => decide (e.1 = q)) := by
  induction fs with
  | nil => rfl
  | cons e fs ih =>
    by_cases hp : e.1 = p
    · have h2 : ¬ e.1 = q := fun hq => h (hq.symm.trans hp)
      rw [List.filter_cons_of_neg (by simpa using hp),
        List.find?_cons_of_neg _ (by simpa using h2), ih]
    · by_cases hq : e.1 = q
      · rw [List.filter_cons_of_pos (by simpa using hp),
          List.find?_cons_of_pos _ (by simpa using hq),
          List.find?_cons_of_pos _ (by simpa using hq)]
      · rw [List.filter_cons_of_pos (by simpa using hp),
          List.find?_cons_of_neg _ (by simpa using hq),
          List.find?_cons_of_neg _ (by simpa using hq), ih]

theorem fsRead?_write_ne (fs : FS) (p c q : Str) (h : q ≠ p) :
    fsRead? (fsWrite fs p c) q = fsRead? fs q := by
  unfold fsRead? fsWrite
  rw [List.find?_cons_of_neg _ (by simpa using Ne.symm h), find?_entry_filter fs p q h]

theorem fsRead?_remove_ne (fs : FS) (p q : Str) (h : q ≠ p) :
    fsRead? (fsRemove fs p) q = fsRead? fs q := by
  unfold fsRead? fsRemove
  rw [find?_entry_filter fs p q h]

theorem configPath_ne_tempConf (n m : Str) : configPath n ≠ tempConfPath m := by
  intro h
  have h2 : ((configPath n).drop 1).head? = ((tempConfPath m).drop 1).head? := by rw [h]
  have he : ((configPath n).drop 1).head? = some 'e' := rfl
  have ht : ((tempConfPath m).drop 1).head? = some 't' := rfl
  rw [he, ht] at h2
  exact absurd h2 (by decide)

theorem configPath_ne_tempStripped (n m : Str) : configPath n ≠ tempStrippedPath m := by
  intro h
  have h2 : ((configPath n).drop 1).head? = ((tempStrippedPath m).drop 1).head? := by rw [h]
  have he : ((configPath n).drop 1).head? = some 'e' := rfl
  have ht : ((tempStrippedPath m).drop 1).head? = some 't' := rfl
  rw [he, ht] at h2
  exact absurd h2 (by decide)

theorem sync_preserves_other (env : WgEnv) (name content : Str) (fs : FS) (p : Str)
    (h1 : p ≠ tempConfPath name) (h2 : p ≠ tempStrippedPath name) :
    fsRead? (sync_interface_with_content env name content fs).2 p = fsRead? fs p := by
  unfold sync_interface_with_content
  cases e1 : env.tempConfWriteOk with
  | false => simp [e1]
  | true =>
    cases e2 : env.stripRes.success with
    | false => simp [e1, e2, fsRead?_write_ne _ _ _ _ h1]
    | true =>
      cases e3 : env.tempStrippedWriteOk with
      | false => simp [e1, e2, e3, fsRead?_write_ne _ _ _ _ h1]
      | true =>
        cases e4 : env.syncRes.success with
        | false =>
          simp [e1, e2, e3, e4, fsRead?_write_ne _ _ _ _ h2, fsRead?_write_ne _ _ _ _ h1]
        | true =>
          simp [e1, e2, e3, e4, fsRead?_remove_ne _ _ _ h2, fsRead?_remove_ne _ _ _ h1,
            fsRead?_write_ne _ _ _ _ h2, fsRead?_write_ne _ _ _ _ h1]

theorem sync_error_iff (env : WgEnv) (n c : Str) (f : FS) :
    (∃ e2 f3, sync_interface_with_content env n c f = (.error e2, f3))
      ↔ (env.tempConfWriteOk = false ∨ env.stripRes.success = false
        ∨ env.tempStrippedWriteOk = false ∨ env.syncRes.success = false) := by
  unfold sync_interface_with_content
  cases e1 : env.tempConfWriteOk <;> cases e2 : env.stripRes.success <;>
    cases e3 : env.tempStrippedWriteOk <;> cases e4 : env.syncRes.success <;>
      simp [e1, e2, e3, e4]

/-- C10: when `add_server_peer` targets an active interface and the live
resync fails — exactly when writing a temporary file fails or the strip or
reconcile subprocess exits non-zero (third conjunct) — the operation returns
that error and the tunnel's on-disk configuration file still holds its
original content: the persist happens only after a successful resync. -/
theorem c10_add_server_peer_sync_failure (env : WgEnv) (name : Str) (fs : FS) (content addr : Str) (base : Ipv4)
    (pk lp : Str) (port : Nat) (pip : Ipv4) (ppriv ppub spub : Str) (e : Err) (fs1 : FS)
    (hactive : env.active = true)
    (hread : fsRead? fs (configPath name) = some content)
    (hserver : is_server_config content = true)
    (haddr : (parse_interface_addresses content).find?
        (fun a => (parse_ipv4_address a).isSome) = some addr)
    (hbase : parse_ipv4_address addr = some base)
    (hpk : parse_interface_value content ("PrivateKey".data) = some pk)
    (hlp : parse_interface_value content ("ListenPort".data) = some lp)
    (hport : parseU16? lp = some port)
    (halloc : next_peer_ipv4 base
        (base :: (parse_peer_allowed_ips content).filterMap parse_ipv4_address) = some pip)
    (hkp : generate_keypair env = .ok (ppriv, ppub))
    (hspub : derive_public_key env pk = .ok spub)
    (hsync : sync_interface_with_content env name
        (appendPeerBlock content ppub (ipv4Str pip ++ "/32".data)) fs = (.error e, fs1)) :
    add_server_peer env name fs = (.error e, fs1)
    ∧ fsRead? fs1 (configPath name) = some content
    ∧ (∀ (n2 c2 : Str) (f2 : FS),
        (∃ e2 f3, sync_interface_with_content env n2 c2 f2 = (.error e2, f3))
        ↔ (env.tempConfWriteOk = false ∨ env.stripRes.success = false
          ∨ env.tempStrippedWriteOk = false ∨ env.syncRes.success = false)) := by
  refine ⟨?_, ?_, fun n2 c2 f2 => sync_error_iff env n2 c2 f2⟩
  · unfold add_server_peer
    simp only [hread, hserver, haddr, hbase, hpk, hlp, hport, halloc, hkp, hspub, hactive,
      Bool.not_true, Bool.false_eq_true, if_false, if_true, hsync]
  · have hp := sync_preserves_other env name
      (appendPeerBlock content ppub (ipv4Str pip ++ "/32".data)) fs (configPath name)
      (configPath_ne_tempConf name name) (configPath_ne_tempStripped name name)
    rw [hsync] at hp
    rw [hp, hread]

/-- Witness for C10 at a concrete input: with `wg-quick strip` failing
(stderr `strip boom`) on an active server tunnel, `add_server_peer` returns
that failure and the stored configuration is still `smallServerCfg`. -/
theorem c10_witness :
    add_server_peer envStripFail ("wg0".data) [(configPath ("wg0".data), smallServerCfg)]
      = (.error (.wgTui ("strip boom".data)),
         fsWrite [(configPath ("wg0".data), smallServerCfg)] (tempConfPath ("wg0".data))
           (appendPeerBlock smallServerCfg ("PUB".data)
             (ipv4Str ⟨10, 0, 0, 3⟩ ++ "/32".data)))
    ∧ fsRead?
        (fsWrite [(configPath ("wg0".data), smallServerCfg)] (tempConfPath ("wg0".data))
          (appendPeerBlock smallServerCfg ("PUB".data)
            (ipv4Str ⟨10, 0, 0, 3⟩ ++ "/32".data)))
        (configPath ("wg0".data)) = some smallServerCfg :=
  have h := c10_add_server_peer_sync_failure envStripFail ("wg0".data) [(configPath ("wg0".data), smallServerCfg)]
    smallServerCfg ("10.0.0.1/24".data) ⟨10, 0, 0, 1⟩ ("KEY".data) ("51820".data) 51820
    ⟨10, 0, 0, 3⟩ ("PRIV".data) ("PUB".data) ("PUB".data)
    (.wgTui ("strip boom".data))
    (fsWrite [(configPath ("wg0".data), smallServerCfg)] (tempConfPath ("wg0".data))
      (appendPeerBlock smallServerCfg ("PUB".data) (ipv4Str ⟨10, 0, 0, 3⟩ ++ "/32".data)))
    rfl rfl rfl rfl rfl rfl rfl rfl rfl rfl rfl rfl
  ⟨h.1, h.2.1⟩

theorem splitPred_no_sep (p : Char → Bool) (xs : Str) (h : ∀ x ∈ xs, p x = false) :
    splitPred p xs = [xs] := by
  induction xs with
  | nil => rfl
  | cons x xs ih =>
    have hx := h x (List.mem_cons_self x xs)
    simp only [splitPred, hx, Bool.false_eq_true, if_false]
    rw [ih fun y hy => h y (List.mem_cons_of_mem x hy)]

theorem splitPred_sep_append (p : Char → Bool) (xs : Str) (c : Char) (ys : Str)
    (hc : p c = true) (h : ∀ x ∈ xs, p x = false) :
    splitPred p (xs ++ c :: ys) = xs :: splitPred p ys := by
  induction xs with
  | nil => simp [splitPred, hc]
  | cons x xs ih =>
    have hx := h x (List.mem_cons_self x xs)
    simp only [List.cons_append, splitPred, hx, Bool.false_eq_true, if_false, List.append_eq]
    rw [ih fun y hy => h y (List.mem_cons_of_mem x hy)]

theorem splitWs_pair (mag u : Str) (hm : ∀ c ∈ mag, isWs c = false)
    (hu : ∀ c ∈ u, isWs c = false) (hmne : mag ≠ []) (hune : u ≠ []) :
    splitWs (mag ++ ' ' :: u) = [mag, u] := by
  unfold splitWs
  rw [splitPred_sep_append isWs mag ' ' u rfl hm, splitPred_no_sep isWs u hu]
  simp [List.filter, hmne, hune]

/-- C6 (amended): `parse_bytes` removes every `" received"`/`" sent"`
occurrence (not only a trailing one), splits the rest into a magnitude and a
unit token, matches the unit ASCII-case-insensitively (by upper-casing)
against B/KiB/MiB/GiB/TiB with 1024-based multipliers, and yields 0 — never
an error — for an unparsable magnitude or unrecognized unit; consequently
`transfer: 1.00 KiB received, 2.00 MiB sent` parses to
`transfer_rx = 1024` and `transfer_tx = 2097152`. -/
theorem c6_amended_parse_bytes (mag u : Str)
    (hm : ∀ c ∈ mag, isWs c = false) (hu : ∀ c ∈ u, isWs c = false)
    (hmne : mag ≠ []) (hune : u ≠ [])
    (h1 : replaceStr (" received".data) [] (mag ++ ' ' :: u) = mag ++ ' ' :: u)
    (h2 : replaceStr (" sent".data) [] (mag ++ ' ' :: u) = mag ++ ' ' :: u) :
    (∀ v m, parseDecimal? mag = some v → unitMult? (asciiUpper u) = some m →
        parse_bytes (mag ++ ' ' :: u) = decToU64 (decMulNat v m))
    ∧ (unitMult? (asciiUpper u) = none → parse_bytes (mag ++ ' ' :: u) = 0)
    ∧ (parseDecimal? mag = none → parse_bytes (mag ++ ' ' :: u) = 0)
    ∧ (parse_bytes ("1.00 KiB received".data) = 1024
       ∧ parse_bytes ("2.00 MiB sent".data) = 2097152)
    ∧ (parse_wg_output
          ("peer: k\ntransfer: 1.00 KiB received, 2.00 MiB sent".data)).peers.map
        (fun p => (p.transfer_rx, p.transfer_tx)) = [(1024, 2097152)] := by
  have hsplit : splitWs (mag ++ ' ' :: u) = [mag, u] := splitWs_pair mag u hm hu hmne hune
  refine ⟨?_, ?_, ?_, ⟨rfl, rfl⟩, rfl⟩
  · intro v m hv hm2
    simp only [parse_bytes]
    rw [h1, h2, hsplit]
    simp only [List.head?_cons, List.get?_cons_succ, List.get?_cons_zero, Option.map_some',
      Option.some_bind, hv, Option.getD_some]
    by_cases hB : asciiUpper u = "B".data
    · unfold unitMult? at hm2
      rw [if_pos hB] at hm2
      obtain rfl : (1 : Nat) = m := by simpa using hm2
      rw [if_pos hB]
      simp [decMulNat]
    · rw [if_neg hB]
      by_cases hK : asciiUpper u = "KIB".data
      · unfold unitMult? at hm2
        rw [if_neg hB, if_pos hK] at hm2
        obtain rfl : KIB = m := by simpa using hm2
        rw [if_pos hK]
      · rw [if_neg hK]
        by_cases hM : asciiUpper u = "MIB".data
        · unfold unitMult? at hm2
          rw [if_neg hB, if_neg hK, if_pos hM] at hm2
          obtain rfl : MIB = m := by simpa using hm2
          rw [if_pos hM]
        · rw [if_neg hM]
          by_cases hG : asciiUpper u = "GIB".data
          · unfold unitMult? at hm2
            rw [if_neg hB, if_neg hK, if_neg hM, if_pos hG] at hm2
            obtain rfl : GIB = m := by simpa using hm2
            rw [if_pos hG]
          · rw [if_neg hG]
            by_cases hT : asciiUpper u = "TIB".data
            · unfold unitMult? at hm2
              rw [if_neg hB, if_neg hK, if_neg hM, if_neg hG, if_pos hT] at hm2
              obtain rfl : GIB * 1024 = m := by simpa using hm2
              rw [if_pos hT]
              simp [decMulNat, mul_assoc]
            · unfold unitMult? at hm2
              rw [if_neg hB, if_neg hK, if_neg hM, if_neg hG, if_neg hT] at hm2
              exact absurd hm2 (by simp)
  · intro hm2
    simp only [parse_bytes]
    rw [h1, h2, hsplit]
    simp only [List.head?_cons, List.get?_cons_succ, List.get?_cons_zero, Option.map_some']
    by_cases hB : asciiUpper u = "B".data
    · unfold unitMult? at hm2
      rw [if_pos hB] at hm2
      exact absurd hm2 (by simp)
    · rw [if_neg hB]
      by_cases hK : asciiUpper u = "KIB".data
      · unfold unitMult? at hm2
        rw [if_neg hB, if_pos hK] at hm2
        exact absurd hm2 (by simp)
      · rw [if_neg hK]
        by_cases hM : asciiUpper u = "MIB".data
        · unfold unitMult? at hm2
          rw [if_neg hB, if_neg hK, if_pos hM] at hm2
          exact absurd hm2 (by simp)
        · rw [if_neg hM]
          by_cases hG : asciiUpper u = "GIB".data
          · unfold unitMult? at hm2
            rw [if_neg hB, if_neg hK, if_neg hM, if_pos hG] at hm2
            exact absurd hm2 (by simp)
          · rw [if_neg hG]
            by_cases hT : asciiUpper u = "TIB".data
            · unfold unitMult? at hm2
              rw [if_neg hB, if_neg hK, if_neg hM, if_neg hG, if_pos hT] at hm2
              exact absurd hm2 (by simp)
            · rw [if_neg hT]
  · intro hv
    simp only [parse_bytes]
    rw [h1, h2, hsplit]
    simp only [List.head?_cons, List.get?_cons_succ, List.get?_cons_zero, Option.map_some',
      Option.some_bind, hv, Option.getD_none]
    split_ifs <;> simp [decToU64, decMulNat]

/-- C6 counterexample: the source replaces `" received"`/`" sent"` wherever
they occur, not only as a trailing suffix: on `1.00 received KiB` the code
strips the inner `" received"` and yields 1024, while the claimed
trailing-strip mechanism (`parse_bytes_claimed`, the claim's words) leaves
the string alone, finds the unrecognized unit token `received`, and yields
0. -/
theorem c6_counterexample :
    parse_bytes ("1.00 received KiB".data) = 1024
    ∧ parse_bytes_claimed ("1.00 received KiB".data) = 0 := by
  constructor <;> rfl

/-- Witness for C6 at a concrete input: the magnitude `3.5` with the
lower-case unit `kib` parses to `3584` bytes. -/
theorem c6_witness : parse_bytes ("3.5 kib".data) = 3584 := by
  have h := (c6_amended_parse_bytes ("3.5".data) ("kib".data) (by decide) (by decide)
    (by decide) (by decide) (by decide) (by decide)).1 ⟨35, 1⟩ KIB rfl rfl
  have he : ("3.5".data ++ ' ' :: "kib".data) = "3.5 kib".data := by decide
  rw [he] at h
  rw [h]
  rfl


theorem strLt_asymm : ∀ {a b : Str}, strLt a b = true → strLt b a = false
  | [], [], h => by simp [strLt] at h
  | [], _ :: _, _ => rfl
  | _ :: _, [], h => by simp [strLt] at h
  | x :: xs, y :: ys, h => by
    simp only [strLt] at h ⊢
    by_cases hxy : x < y
    · rw [if_neg (lt_asymm hxy), if_pos hxy]
    · rw [if_neg hxy] at h
      by_cases hyx : y < x
      · rw [if_pos hyx] at h
        exact absurd h (by simp)
      · rw [if_neg hyx] at h
        rw [if_neg hyx, if_neg hxy]
        exact strLt_asymm h

theorem strLt_trans : ∀ {a b c : Str},
    strLt a b = true → strLt b c = true → strLt a c = true
  | [], _, _ :: _, _, _ => rfl
  | [], _, [], _, h2 => by
    cases h2.symm.trans (by cases ‹Str› <;> simp [strLt] : strLt _ [] = false)
  | _ :: _, b, [], h1, h2 => by
    cases h2.symm.trans (by cases b <;> simp [strLt] : strLt _ [] = false)
  | x :: xs, [], z :: zs, h1, _ => by simp [strLt] at h1
  | x :: xs, y :: ys, z :: zs, h1, h2 => by
    simp only [strLt] at h1 h2 ⊢
    by_cases hxy : x < y
    · by_cases hyz : y < z
      · rw [if_pos (lt_trans hxy hyz)]
      · rw [if_neg hyz] at h2
        by_cases hzy : z < y
        · rw [if_pos hzy] at h2
          exact absurd h2 (by simp)
        · have : y = z := le_antisymm (not_lt.mp hzy) (not_lt.mp hyz)
          subst this
          rw [if_pos hxy]
    · rw [if_neg hxy] at h1
      by_cases hyx : y < x
      · rw [if_pos hyx] at h1
        exact absurd h1 (by simp)
      · have : x = y := le_antisymm (not_lt.mp hyx) (not_lt.mp hxy)
        subst this
        rw [if_neg hxy] at h1
        by_cases hyz : x < z
        · rw [if_pos hyz]
        · rw [if_neg hyz] at h2 ⊢
          by_cases hzy : z < x
          · rw [if_pos hzy] at h2
            exact absurd h2 (by simp)
          · rw [if_neg hzy] at h2 ⊢
            exact strLt_trans h1 h2

theorem strLt_conn : ∀ {a b : Str}, strLt a b = false → strLt b a = false → a = b
  | [], [], _, _ => rfl
  | [], _ :: _, h1, _ => by simp [strLt] at h1
  | _ :: _, [], _, h2 => by simp [strLt] at h2
  | x :: xs, y :: ys, h1, h2 => by
    simp only [strLt] at h1 h2
    by_cases hxy : x < y
    · rw [if_pos hxy] at h1
      exact absurd h1 (by simp)
    · rw [if_neg hxy] at h1
      by_cases hyx : y < x
      · rw [if_pos hyx] at h2
        exact absurd h2 (by simp)
      · rw [if_neg hyx] at h1
        rw [if_neg hyx, if_neg hxy] at h2
        have hxyeq : x = y := le_antisymm (not_lt.mp hyx) (not_lt.mp hxy)
        rw [hxyeq, strLt_conn h1 h2]

theorem tunLe_total (x y : Tunnel) : tunLe x y = true ∨ tunLe y x = true := by
  unfold tunLe
  cases h : strLt y.name x.name with
  | false => exact Or.inl rfl
  | true => exact Or.inr (by rw [strLt_asymm h]; rfl)

theorem tunLe_trans {x y z : Tunnel} (h1 : tunLe x y = true) (h2 : tunLe y z = true) :
    tunLe x z = true := by
  unfold tunLe at h1 h2 ⊢
  rw [Bool.not_eq_true'] at h1 h2 ⊢
  cases h3 : strLt z.name x.name with
  | false => rfl
  | true =>
    exfalso
    cases h4 : strLt x.name y.name with
    | true =>
      have h5 := strLt_trans h3 h4
      rw [h2] at h5
      exact Bool.false_ne_true h5
    | false =>
      have hxy := strLt_conn h4 h1
      rw [hxy] at h3
      rw [h2] at h3
      exact Bool.false_ne_true h3

theorem tunLe_of_not {x y : Tunnel} (h : ¬ tunLe x y = true) : tunLe y x = true :=
  (tunLe_total x y).resolve_left h

theorem mem_insertTun {t : Tunnel} : ∀ {l : List Tunnel} {y : Tunnel},
    y ∈ insertTun t l → y = t ∨ y ∈ l := by
  intro l
  induction l with
  | nil => intro y hy; simpa [insertTun] using hy
  | cons x xs ih =>
    intro y hy
    unfold insertTun at hy
    by_cases hc : tunLe t x = true
    · rw [if_pos hc] at hy
      rcases List.mem_cons.mp hy with rfl | hy
      · exact Or.inl rfl
      · exact Or.inr hy
    · rw [if_neg hc] at hy
      rcases List.mem_cons.mp hy with rfl | hy
      · exact Or.inr (List.mem_cons_self _ _)
      · rcases ih hy with rfl | hy
        · exact Or.inl rfl
        · exact Or.inr (List.mem_cons_of_mem _ hy)

theorem insertTun_perm (t : Tunnel) : ∀ (l : List Tunnel), (insertTun t l).Perm (t :: l)
  | [] => List.Perm.refl _
  | x :: xs => by
    unfold insertTun
    by_cases hc : tunLe t x = true
    · rw [if_pos hc]
    · rw [if_neg hc]
      exact ((insertTun_perm t xs).cons x).trans (List.Perm.swap t x xs)

theorem sortTunnels_perm : ∀ (l : List Tunnel), (sortTunnels l).Perm l
  | [] => List.Perm.refl _
  | x :: xs => by
    unfold sortTunnels
    exact (insertTun_perm x (sortTunnels xs)).trans ((sortTunnels_perm xs).cons x)

theorem insertTun_sorted (t : Tunnel) : ∀ {l : List Tunnel},
    l.Pairwise (fun a b => tunLe a b = true) →
    (insertTun t l).Pairwise (fun a b => tunLe a b = true) := by
  intro l
  induction l with
  | nil => intro _; simp [insertTun]
  | cons x xs ih =>
    intro hp
    obtain ⟨hx, hxs⟩ := List.pairwise_cons.mp hp
    unfold insertTun
    by_cases hc : tunLe t x = true
    · rw [if_pos hc]
      refine List.pairwise_cons.mpr ⟨?_, hp⟩
      intro y hy
      rcases List.mem_cons.mp hy with rfl | hy
      · exact hc
      · exact tunLe_trans hc (hx y hy)
    · rw [if_neg hc]
      refine List.pairwise_cons.mpr ⟨?_, ih hxs⟩
      intro y hy
      rcases mem_insertTun hy with rfl | hy
      · exact tunLe_of_not hc
      · exact hx y hy

theorem sortTunnels_sorted : ∀ (l : List Tunnel),
    (sortTunnels l).Pairwise (fun a b => tunLe a b = true)
  | [] => List.Pairwise.nil
  | x :: xs => by
    unfold sortTunnels
    exact insertTun_sorted x (sortTunnels_sorted xs)

theorem sorted_perm_unique : ∀ (l1 l2 : List Tunnel), l1.Perm l2 →
    l1.Pairwise (fun a b => tunLe a b = true) →
    l2.Pairwise (fun a b => tunLe a b = true) →
    (∀ a ∈ l1, ∀ b ∈ l2, a.name = b.name → a = b) → l1 = l2
  | [], l2, hp, _, _, _ => (hp.nil_eq).symm ▸ rfl
  | x :: xs, [], hp, _, _, _ => absurd hp.symm.nil_eq (by simp)
  | x :: xs, y :: ys, hp, h1, h2, hdet => by
    obtain ⟨hx1, hxs1⟩ := List.pairwise_cons.mp h1
    obtain ⟨hy2, hys2⟩ := List.pairwise_cons.mp h2
    have hxy : x = y := by
      have hx2 : x ∈ y :: ys := hp.subset (List.mem_cons_self x xs)
      have hy1 : y ∈ x :: xs := hp.symm.subset (List.mem_cons_self y ys)
      rcases List.mem_cons.mp hx2 with rfl | hx2
      · rfl
      · rcases List.mem_cons.mp hy1 with hyx | hy1
        · exact hyx.symm
        · have hle1 : tunLe x y = true := hx1 y hy1
          have hle2 : tunLe y x = true := hy2 x hx2
          unfold tunLe at hle1 hle2
          rw [Bool.not_eq_true'] at hle1 hle2
          have hname : x.name = y.name := strLt_conn hle2 hle1
          exact hdet x (List.mem_cons_self x xs) y (List.mem_cons_self y ys) hname
    subst hxy
    have htl := hp.cons_inv
    have := sorted_perm_unique xs ys htl hxs1 hys2
      (fun a ha b hb => hdet a (List.mem_cons_of_mem x ha) b (List.mem_cons_of_mem x hb))
    rw [this]

theorem splitOnceGo_eq (c : Char) : ∀ (s pre a b : Str),
    splitOnceGo c pre s = some (a, b) → pre.reverse ++ s = a ++ c :: b := by
  intro s
  induction s with
  | nil => intro pre a b h; simp [splitOnceGo] at h
  | cons x xs ih =>
    intro pre a b h
    unfold splitOnceGo at h
    by_cases hx : x = c
    · rw [if_pos hx] at h
      injection h with h
      injection h with ha hb
      subst ha
      subst hb
      rw [hx]
    · rw [if_neg hx] at h
      have h2 := ih (x :: pre) a b h
      simpa [List.reverse_cons, List.append_assoc] using h2

theorem splitOnceChar_eq (c : Char) (s a b : Str) (h : splitOnceChar c s = some (a, b)) :
    s = a ++ c :: b := by
  have h2 := splitOnceGo_eq c s [] a b h
  simpa using h2

theorem fileSplit_recover (f stem e : Str) (h : fileSplit f = (stem, some e)) :
    f = stem ++ '.' :: e := by
  unfold fileSplit at h
  cases hs : splitOnceChar '.' f.reverse with
  | none =>
    rw [hs] at h
    injection h with h1 h2
    simp at h2
  | some ab =>
    obtain ⟨er, sr⟩ := ab
    rw [hs] at h
    have h2 : (if sr.isEmpty = true then ((f, none) : Str × Option Str)
        else (sr.reverse, some er.reverse)) = (stem, some e) := h
    cases hsr : sr.isEmpty with
    | true =>
      rw [if_pos hsr] at h2
      injection h2 with h3 h4
      simp at h4
    | false =>
      rw [if_neg (by simp [hsr])] at h2
      injection h2 with h3 h4
      injection h4 with h4
      have hf := splitOnceChar_eq '.' f.reverse er sr hs
      rw [← h3, ← h4]
      calc f = (f.reverse).reverse := (List.reverse_reverse f).symm
        _ = (er ++ '.' :: sr).reverse := by rw [hf]
        _ = sr.reverse ++ '.' :: er.reverse := by simp

theorem fileExt_recover (f e : Str) (h : fileExtension? f = some e) :
    f = fileStem f ++ '.' :: e := by
  refine fileSplit_recover f (fileStem f) e ?_
  unfold fileExtension? at h
  unfold fileStem
  rw [← h]

theorem mem_keepConf {entries : List Str} {t : Tunnel} (h : t ∈ keepConf entries) :
    ∃ f ∈ entries, fileExtension? f = some ("conf".data)
      ∧ t = ⟨fileStem f, "/etc/wireguard/".data ++ f, false, none⟩ := by
  unfold keepConf at h
  obtain ⟨f, hf, heq⟩ := List.mem_filterMap.mp h
  refine ⟨f, hf, ?_⟩
  cases hx : fileExtension? f with
  | none => rw [hx] at heq; simp at heq
  | some e =>
    simp only [hx] at heq
    by_cases hce : e = "conf".data
    · rw [if_pos hce] at heq
      injection heq with heq
      subst hce
      exact ⟨rfl, heq.symm⟩
    · rw [if_neg hce] at heq
      simp at heq

theorem keepConf_mem {entries : List Str} {f : Str} (hf : f ∈ entries)
    (hx : fileExtension? f = some ("conf".data)) :
    (⟨fileStem f, "/etc/wireguard/".data ++ f, false, none⟩ : Tunnel) ∈ keepConf entries := by
  unfold keepConf
  refine List.mem_filterMap.mpr ⟨f, hf, ?_⟩
  rw [hx]
  simp

theorem keepConf_name_det {l1 l2 : List Str} {a b : Tunnel}
    (ha : a ∈ keepConf l1) (hb : b ∈ keepConf l2) (hn : a.name = b.name) : a = b := by
  obtain ⟨fa, _, hxa, rfl⟩ := mem_keepConf ha
  obtain ⟨fb, _, hxb, rfl⟩ := mem_keepConf hb
  simp only at hn
  have hfa := fileExt_recover fa _ hxa
  have hfb := fileExt_recover fb _ hxb
  have hff : fa = fb := by rw [hfa, hfb, hn]
  rw [hff]

/-- C8: `discover_tunnels` returns the empty list (never an error) for a
missing or unreadable directory; every returned entry comes from a listing
entry with a `.conf` extension, is named by that entry's file stem and
carries its full path; every `.conf` entry of the listing is returned; the
result is sorted lexicographically by name; and the result is independent of
the filesystem iteration order (any permutation of the listing yields the
identical result). -/
theorem c8_discover_tunnels (l : List Str) :
    discover_tunnels none = []
    ∧ (∀ t ∈ discover_tunnels (some l), ∃ f ∈ l,
        fileExtension? f = some ("conf".data) ∧ t.name = fileStem f
        ∧ t.config_path = "/etc/wireguard/".data ++ f)
    ∧ (∀ f ∈ l, fileExtension? f = some ("conf".data) →
        ∃ t ∈ discover_tunnels (some l), t.name = fileStem f)
    ∧ List.Pairwise (fun a b => strLt b.name a.name = false) (discover_tunnels (some l))
    ∧ (∀ l2, l.Perm l2 → discover_tunnels (some l) = discover_tunnels (some l2)) := by
  refine ⟨rfl, ?_, ?_, ?_, ?_⟩
  · intro t ht
    have hk : t ∈ keepConf l := (sortTunnels_perm (keepConf l)).subset ht
    obtain ⟨f, hf, hx, rfl⟩ := mem_keepConf hk
    exact ⟨f, hf, hx, rfl, rfl⟩
  · intro f hf hx
    refine ⟨⟨fileStem f, "/etc/wireguard/".data ++ f, false, none⟩, ?_, rfl⟩
    exact (sortTunnels_perm (keepConf l)).symm.subset (keepConf_mem hf hx)
  · have hs := sortTunnels_sorted (keepConf l)
    exact hs.imp fun {a b} hab => by
      unfold tunLe at hab
      rwa [Bool.not_eq_true'] at hab
  · intro l2 hp
    apply sorted_perm_unique
    · exact (sortTunnels_perm (keepConf l)).trans
        ((hp.filterMap _).trans (sortTunnels_perm (keepConf l2)).symm)
    · exact sortTunnels_sorted (keepConf l)
    · exact sortTunnels_sorted (keepConf l2)
    · intro a ha b hb hn
      exact keepConf_name_det ((sortTunnels_perm (keepConf l)).subset ha)
        ((sortTunnels_perm (keepConf l2)).subset hb) hn

/-- Witness for C8 at a concrete input: two listings of the same directory
entries in different orders produce the identical discovery result. -/
theorem c8_witness :
    discover_tunnels (some ["b.conf".data, "a.conf".data, "x.txt".data])
      = discover_tunnels (some ["a.conf".data, "x.txt".data, "b.conf".data]) :=
  (c8_discover_tunnels ["b.conf".data, "a.conf".data, "x.txt".data]).2.2.2.2
    ["a.conf".data, "x.txt".data, "b.conf".data] (by decide)

/-- Witness for C2 (amended) at a concrete input: the characterization's
right-to-left direction applied to a bare `AllowedIPs = ::/0` line. -/
theorem c2_witness :
    is_full_tunnel_config (some ("AllowedIPs = ::/0".data)) = true :=
  (c2_amended_full_tunnel ("AllowedIPs = ::/0".data)).1.mpr
    ⟨"AllowedIPs = ::/0".data, by decide, rfl, rfl, "AllowedIPs ".data, " ::/0".data,
      rfl, rfl, "::/0".data, by decide, Or.inr rfl⟩
